import Mathlib

/-!
Shallow embedding of the batch-collection and title-correlation engine of
this repository (bot.py) together with the caption pagination and natural
episode ordering of utils/helpers.py.

External collaborators (the Telegram messaging gateway, the database, the
IMDb title oracle, the thefuzz similarity metric, the web server) are
modelled as inputs: a FileEvent carries the outcomes of the external calls
made while the Ingest Worker processes it, and the Finalization Pipeline
receives an environment record holding the oracle results.  All state
mutation and control flow is transcribed from the source.
-/

/-- Pointwise update of a map modelled as a function with explicit default. -/
def upd {A : Type} (f : Nat → A) (k : Nat) (v : A) : Nat → A :=
  fun x => if x = k then v else f x

/-- Media object attached to an inbound message.  The duration field is
none when the media object has no duration attribute or carries None. -/
structure Media where
  fileName : String
  duration : Option Nat
deriving DecidableEq, Repr

/-- One inbound file event, as consumed by file_processor_worker in bot.py.
The fields indexChannel and copyResult record the outcomes of the external
database lookup get_index_db_channel and of message.copy (wrapped in
send_with_protection, which swallows failures and yields None).  An
archived (copied) message is identified by a natural number. -/
structure FileEvent where
  userId : Nat
  media : Option Media
  indexChannel : Option Int
  copyResult : Option Nat
deriving DecidableEq, Repr

/-- The per-user collection window dictionary created by
_start_new_collection in bot.py: the accumulated messages, the skipped
file names shown on the dashboard, and the handle of the scheduled
inactivity timer.  The dashboard message itself is an external messaging
object and is not part of the state. -/
structure CollectionData where
  messages : List Nat
  skippedFiles : List String
  timer : Option Nat
deriving DecidableEq, Repr

/-- Static configuration relevant to the worker (Config.OWNER_DB_CHANNEL). -/
structure BotConfig where
  ownerDbChannel : Option Int
deriving DecidableEq, Repr

/-- The mutable state of the Bot object that the Ingest Worker and the
Finalization Pipeline share: open_batches, processing_users,
waiting_files, the set of live (scheduled, not yet fired or cancelled)
inactivity timers together with a fresh-handle counter, the unfinished
task counter of the asyncio file_queue, and the global flood-wait flag. -/
structure BotState where
  openBatches : Nat → Option CollectionData
  processingUsers : Nat → Bool
  waitingFiles : Nat → List Nat
  liveTimers : List (Nat × Nat)
  nextTimer : Nat
  unfinished : Nat
  isInFloodWait : Bool

/-- Observable side effects of one Ingest Worker iteration. -/
inductive WorkerAction where
  | copyCall (userId : Nat)
  | saveFileData (userId archived : Nat)
  | appendWaiting (userId archived : Nat)
  | newWindow (userId : Nat) (msgs : List Nat)
  | appendWindow (userId archived : Nat)
  | skipShort (userId : Nat) (fileName : String)
deriving DecidableEq, Repr

/-- Exceptions that can cross the per-event boundary of the worker. -/
inductive WorkerErr where
  | valueError
deriving DecidableEq, Repr

/-- asyncio.Queue.task_done: raises ValueError when called more times than
items were put, otherwise decrements the unfinished-task counter. -/
def taskDone (n : Nat) : Except WorkerErr Nat :=
  if n = 0 then .error .valueError else .ok (n - 1)

/-- The duration check of bot.py line 231: media.duration is truthy
(nonzero, not None) and strictly below 1200 seconds. -/
def isShortDuration (m : Media) : Bool :=
  match m.duration with
  | none => false
  | some d => decide (d ≠ 0 ∧ d < 1200)

/-- _start_new_collection: build a fresh collection window holding exactly
the given initial messages, schedule its 10 second inactivity timer under
a fresh handle, and register the window in open_batches.  The dashboard
message and channel-title lookups are external side effects. -/
def startNewCollection (s : BotState) (u : Nat) (initialMessages : List Nat) : BotState :=
  let cd : CollectionData :=
    { messages := initialMessages, skippedFiles := [], timer := some s.nextTimer }
  { s with
    openBatches := upd s.openBatches u (some cd),
    liveTimers := s.liveTimers ++ [(s.nextTimer, u)],
    nextTimer := s.nextTimer + 1 }

/-- The try-block of one iteration of file_processor_worker (bot.py lines
227 to 269).  A none media models a message whose media enumeration is
unset, so that getattr(message, message.media.value, None) raises inside
the try block and is caught by the except clause with no state change.
The task_done call of the short-duration branch (line 236) happens inside
the try block, so a ValueError raised there is caught as well. -/
def workerBody (cfg : BotConfig) (s : BotState) (e : FileEvent) :
    BotState × List WorkerAction :=
  match e.media with
  | none => (s, [])
  | some media =>
    if isShortDuration media then
      let s1 :=
        match s.openBatches e.userId with
        | some cd =>
          let cd1 := { cd with skippedFiles := cd.skippedFiles ++ [media.fileName] }
          { s with openBatches := upd s.openBatches e.userId (some cd1) }
        | none => s
      let s2 :=
        match taskDone s1.unfinished with
        | .ok n => { s1 with unfinished := n }
        | .error _ => s1
      (s2, [.skipShort e.userId media.fileName])
    else
      match e.indexChannel.orElse (fun _ => cfg.ownerDbChannel) with
      | none => (s, [])
      | some _ =>
        match e.copyResult with
        | none => (s, [.copyCall e.userId])
        | some copied =>
          let acts := [.copyCall e.userId, .saveFileData e.userId copied]
          if s.processingUsers e.userId then
            let wf := upd s.waitingFiles e.userId (s.waitingFiles e.userId ++ [copied])
            ({ s with waitingFiles := wf }, acts ++ [.appendWaiting e.userId copied])
          else
            match s.openBatches e.userId with
            | none =>
              (startNewCollection s e.userId [copied], acts ++ [.newWindow e.userId [copied]])
            | some cd =>
              let live1 :=
                match cd.timer with
                | some t => s.liveTimers.filter (fun p => p.1 ≠ t)
                | none => s.liveTimers
              let cd1 := { cd with messages := cd.messages ++ [copied],
                                   timer := some s.nextTimer }
              ({ s with
                  openBatches := upd s.openBatches e.userId (some cd1),
                  liveTimers := live1 ++ [(s.nextTimer, e.userId)],
                  nextTimer := s.nextTimer + 1 },
               acts ++ [.appendWindow e.userId copied])

/-- One full iteration of the worker loop: the try-block (with every
exception raised inside it caught by the except clause), followed by the
finally clause, whose own task_done call can raise a ValueError that
escapes the per-event boundary (bot.py lines 271 to 275). -/
def workerStep (cfg : BotConfig) (s : BotState) (e : FileEvent) :
    BotState × List WorkerAction × Option WorkerErr :=
  let r := workerBody cfg s e
  match taskDone r.1.unfinished with
  | .ok n => ({ r.1 with unfinished := n }, r.2, none)
  | .error err => (r.1, r.2, some err)

/-- Result of running the worker over a queue of events. -/
structure RunResult where
  state : BotState
  acts : List WorkerAction
  err : Option WorkerErr

/-- The while-True worker loop consuming a queue of events in FIFO order.
Each event is processed fully before the next one is pulled; an exception
escaping an iteration terminates the loop (the coroutine dies) with the
remaining events unprocessed. -/
def runWorker (cfg : BotConfig) (s : BotState) : List FileEvent → RunResult
  | [] => { state := s, acts := [], err := none }
  | e :: es =>
    let r := workerStep cfg s e
    match r.2.2 with
    | some err => { state := r.1, acts := r.2.1, err := some err }
    | none =>
      let rest := runWorker cfg r.1 es
      { state := rest.state, acts := r.2.1 ++ rest.acts, err := rest.err }

/-- Result of the title oracle clean_and_parse_filename for one message.
Only the batch_title field is consumed by the grouping loop of
_finalize_collection; the remaining fields of the returned dictionary feed
the (external) display layer.  An empty batch_title models a falsy
batch_title value. -/
structure Info where
  batchTitle : String
deriving DecidableEq, Repr

/-- One iteration of the inner loop of bot.py lines 178 to 182: compare
the current title with one existing key and update the running best when
the similarity strictly exceeds it. -/
def bestFoldStep (sim : String → String → Nat) (title : String)
    (acc : Option String × Nat) (k : String) : Option String × Nat :=
  let sc := sim title k
  if acc.2 < sc then (some k, sc) else acc

/-- The inner loop of bot.py lines 175 to 182: scan the keys of the batches
formed so far, remembering the first key whose similarity with the current
title strictly exceeds the running best (initially None with score 0). -/
def bestExisting (sim : String → String → Nat) (title : String) (keys : List String) :
    Option String × Nat :=
  keys.foldl (bestFoldStep sim title) (none, 0)

/-- SIMILARITY_THRESHOLD of bot.py line 177. -/
def SIMILARITY_THRESHOLD : Nat := 85

/-- Python dictionary update d[k].append(m): extend in place the value at
an existing key, keeping insertion order. -/
def dictAppend (bs : List (String × List Nat)) (k : String) (m : Nat) :
    List (String × List Nat) :=
  bs.map (fun p => if p.1 = k then (p.1, p.2 ++ [m]) else p)

/-- Python dictionary assignment d[k] = v: overwrite in place when the key
exists (keeping its insertion position), otherwise append a new entry. -/
def dictSet (bs : List (String × List Nat)) (k : String) (v : List Nat) :
    List (String × List Nat) :=
  if bs.any (fun p => p.1 = k) then bs.map (fun p => if p.1 = k then (k, v) else p)
  else bs ++ [(k, v)]

/-- One iteration of the grouping loop of _finalize_collection (bot.py
lines 171 to 184): skip files whose oracle result is missing or has a
falsy batch_title, otherwise assign the file to the best-matching already
formed batch when the best similarity strictly exceeds the threshold, else
start a new batch keyed by the file's own title.  The none fallback of the
inner match mirrors the fact that a strictly positive best score always
comes with a best key (in Python a None key would raise a KeyError). -/
def groupStep (sim : String → String → Nat) (bs : List (String × List Nat))
    (p : Nat × Option Info) : List (String × List Nat) :=
  match p.2 with
  | none => bs
  | some info =>
    if info.batchTitle = "" then bs
    else
      let best := bestExisting sim info.batchTitle (bs.map Prod.fst)
      if SIMILARITY_THRESHOLD < best.2 then
        match best.1 with
        | some k => dictAppend bs k p.1
        | none => bs
      else dictSet bs info.batchTitle [p.1]

/-- The grouping pass of _finalize_collection: a single left fold over the
window's messages paired with their oracle results, in arrival order. -/
def groupBatches (sim : String → String → Nat) (ps : List (Nat × Option Info)) :
    List (String × List Nat) :=
  ps.foldl (groupStep sim) []

/-- Modelled from the spec: the partition step as the specification words
it, namely compute the best similarity score of the file's title against
the keys of the already-formed batches, assign the file to the first batch
attaining that best score when it lies strictly above the threshold 85,
and otherwise start a new batch keyed by the file's own title. -/
def specPartitionStep (sim : String → String → Nat) (bs : List (String × List Nat))
    (p : Nat × Option Info) : List (String × List Nat) :=
  match p.2 with
  | none => bs
  | some info =>
    if info.batchTitle = "" then bs
    else
      let keys := bs.map Prod.fst
      let best := (keys.map (sim info.batchTitle)).foldl max 0
      if SIMILARITY_THRESHOLD < best then
        match keys.find? (fun k => sim info.batchTitle k = best) with
        | some k => dictAppend bs k p.1
        | none => bs
      else dictSet bs info.batchTitle [p.1]

/-- Modelled from the spec: the whole partition as a single stable pass in
arrival order. -/
def specPartition (sim : String → String → Nat) (ps : List (Nat × Option Info)) :
    List (String × List Nat) :=
  ps.foldl (specPartitionStep sim) []

/-- Exit path taken by one run of _finalize_collection. -/
inductive FinalizeOutcome where
  | rescheduled
  | noWindow
  | emptyWindow
  | noUser
  | noChannel
  | failed
  | success
deriving DecidableEq, Repr

/-- Environment of one run of the Finalization Pipeline: the outcomes of
the external calls it performs.  infoOf is the title oracle
clean_and_parse_filename, sim is fuzz.token_set_ratio, userFound is the
get_user lookup, postChannel and channelValid are the destination-channel
lookup and its notify_and_remove_invalid_channel check, and
raiseUnexpected makes the posting loop raise an unexpected exception that
the top-level except clause catches. -/
structure FinalizeEnv where
  infoOf : Nat → Option Info
  sim : String → String → Nat
  userFound : Bool
  postChannel : Option Int
  channelValid : Bool
  raiseUnexpected : Bool

/-- Result of one run of _finalize_collection.  dashData is the local
collection_data dictionary popped from open_batches, from which the
dashboard text (including the skipped-files list) is rendered. -/
structure FinalizeResult where
  state : BotState
  dashData : Option CollectionData
  batches : List (String × List Nat)
  outcome : FinalizeOutcome

/-- The try-block of _finalize_collection (bot.py lines 151 to 215): pop
the window, return silently when absent or empty, group the accumulated
messages, and bail out on the enumerated configuration errors; the posting
loop and dashboard edits are external sends.  Any unexpected exception is
caught by the except clause after the window was already popped, so every
path leaves the same state. -/
def finalizeBody (env : FinalizeEnv) (s : BotState) (u : Nat) :
    BotState × Option CollectionData × List (String × List Nat) × FinalizeOutcome :=
  match s.openBatches u with
  | none => (s, none, [], .noWindow)
  | some cd =>
    let s1 := { s with openBatches := upd s.openBatches u none }
    if cd.messages = [] then (s1, some cd, [], .emptyWindow)
    else
      let batches := groupBatches env.sim (cd.messages.map (fun m => (m, env.infoOf m)))
      if !env.userFound then (s1, some cd, batches, .noUser)
      else
        match env.postChannel with
        | none => (s1, some cd, batches, .noChannel)
        | some _ =>
          if !env.channelValid then (s1, some cd, batches, .noChannel)
          else if env.raiseUnexpected then (s1, some cd, batches, .failed)
          else (s1, some cd, batches, .success)

/-- One full run of _finalize_collection (bot.py lines 139 to 220).  During
a flood wait the run reschedules the window's timer silently and returns
before acquiring the processing lock.  Otherwise the user is added to
processing_users, the try-block runs, and the finally clause always
discards the lock and, when waiting_files holds queued messages, pops them
into a brand-new collection window. -/
def finalizeStep (env : FinalizeEnv) (s : BotState) (u : Nat) : FinalizeResult :=
  if s.isInFloodWait then
    match s.openBatches u with
    | some cd =>
      let cd1 := { cd with timer := some s.nextTimer }
      let s1 := { s with
        openBatches := upd s.openBatches u (some cd1),
        liveTimers := s.liveTimers ++ [(s.nextTimer, u)],
        nextTimer := s.nextTimer + 1 }
      { state := s1, dashData := none, batches := [], outcome := .rescheduled }
    | none => { state := s, dashData := none, batches := [], outcome := .rescheduled }
  else
    let s1 := { s with processingUsers := upd s.processingUsers u true }
    let r := finalizeBody env s1 u
    let s3 := { r.1 with processingUsers := upd r.1.processingUsers u false }
    let s4 :=
      match s3.waitingFiles u with
      | [] => s3
      | w :: ws => startNewCollection { s3 with waitingFiles := upd s3.waitingFiles u [] } u (w :: ws)
    { state := s4, dashData := r.2.1, batches := r.2.2.1, outcome := r.2.2.2 }

/-- A scheduled inactivity timer fires: it leaves the live set and its
callback runs _finalize_collection for the window's user. -/
def timerFire (env : FinalizeEnv) (s : BotState) (t : Nat × Nat) : FinalizeResult :=
  finalizeStep env { s with liveTimers := s.liveTimers.filter (fun p => p.1 ≠ t.1) } t.2

/-- PHOTO_CAPTION_LIMIT of utils/helpers.py line 18. -/
def PHOTO_CAPTION_LIMIT : Nat := 1024

/-- TEXT_MESSAGE_LIMIT of utils/helpers.py line 19. -/
def TEXT_MESSAGE_LIMIT : Nat := 4096

/-- header_line of create_post (utils/helpers.py line 272). -/
def header_line : String := "▰▱▰▱▰▱▰▱▰▱▰▱▰▱▰▱"

/-- footer_line of create_post (utils/helpers.py line 272). -/
def footer_line : String := "\n\n" ++ "•·•·•·•·•·•·•·•·•·••·•·•·•·•·•·•·•"

/-- Python str.join with the given separator. -/
def joinSep (sep : String) : List String → String
  | [] => ""
  | [x] => x
  | x :: y :: ys => x ++ sep ++ joinSep sep (y :: ys)

/-- Caption assembled for one flushed page of link entries
(utils/helpers.py lines 300 and 308). -/
def flushCaption (base footer : String) (part : List String) : String :=
  base ++ "\n\n" ++ joinSep "\n\n" part ++ footer

/-- The pagination loop of create_post (utils/helpers.py lines 298 to 308):
link entries are accumulated into the current page while the tracked
caption length stays within the limit; when appending an entry would
exceed the limit and the current page is nonempty, the page is flushed and
the entry opens a new page.  Parameters carry the remaining entries, the
flushed pages, the current page and the tracked running length. -/
def paginateLoop (limit : Nat) (base footer : String) :
    List String → List (List String) → List String → Nat → List (List String)
  | [], parts, current, _ =>
    if current = [] then parts else parts ++ [current]
  | entry :: rest, parts, current, len =>
    if limit < len + entry.length + 2 ∧ current ≠ [] then
      paginateLoop limit base footer rest (parts ++ [current]) [entry]
        (base.length + footer.length + entry.length + 2)
    else
      paginateLoop limit base footer rest parts (current ++ [entry])
        (len + entry.length + 2)

/-- The pages of captions produced by the pagination loop of create_post,
before the part-numbering substitution. -/
def paginateCaptions (limit : Nat) (base footer : String) (entries : List String) :
    List String :=
  (paginateLoop limit base footer entries [] [] (base.length + footer.length)).map
    (flushCaption base footer)

/-- One post payload produced by create_post: whether a poster image is
attached, and the caption text.  The footer keyboard is external. -/
structure PostPayload where
  hasPoster : Bool
  caption : String
deriving DecidableEq, Repr

/-- The caption construction and pagination of create_post
(utils/helpers.py lines 266 to 314), parameterised over the poster lookup
outcome, the primary display title and the rendered link entries: the
caption limit is PHOTO_CAPTION_LIMIT with a poster and TEXT_MESSAGE_LIMIT
without, the poster is attached to the first page only, and when more than
one page was produced every occurrence of the title in each caption is
rewritten with a part number. -/
def renderPosts (hasPoster : Bool) (primaryDisplayTitle : String) (entries : List String) :
    List PostPayload :=
  let baseCaption := header_line ++ "\n" ++ ("🎬 **" ++ primaryDisplayTitle ++ "**") ++ "\n" ++ header_line
  let limit := if hasPoster then PHOTO_CAPTION_LIMIT else TEXT_MESSAGE_LIMIT
  let caps := paginateCaptions limit baseCaption footer_line entries
  let posts := caps.enum.map
    (fun p => ({ hasPoster := hasPoster && p.1 == 0, caption := p.2 } : PostPayload))
  if 1 < posts.length then
    posts.enum.map (fun p =>
      let tagged := primaryDisplayTitle ++ " (Part " ++ toString (p.1 + 1) ++ "/" ++
        toString posts.length ++ ")"
      { p.2 with caption := p.2.caption.replace primaryDisplayTitle tagged })
  else posts

/-- Tail of the single pass behind the regular-expression split on digit
runs: cur is the run being built (reversed), inDigits says whether it is a
digit run, acc holds the finished pieces (reversed).  The split of Python
re.split with the capturing pattern of digits alternates non-digit and
digit pieces, beginning and ending with a (possibly empty) non-digit
piece. -/
def splitDigitRunsGo : List Char → List Char → Bool → List (List Char) → List (List Char)
  | [], cur, inDigits, acc =>
    if inDigits then (([] : List Char) :: cur.reverse :: acc).reverse
    else (cur.reverse :: acc).reverse
  | c :: cs, cur, false, acc =>
    if c.isDigit then splitDigitRunsGo cs [c] true (cur.reverse :: acc)
    else splitDigitRunsGo cs (c :: cur) false acc
  | c :: cs, cur, true, acc =>
    if c.isDigit then splitDigitRunsGo cs (c :: cur) true acc
    else splitDigitRunsGo cs [c] false (cur.reverse :: acc)

/-- Python re.split on the capturing digit-run pattern used by
natural_sort_key (utils/helpers.py line 329). -/
def splitDigitRuns (cs : List Char) : List (List Char) :=
  splitDigitRunsGo cs [] false []

/-- Python int applied to a run of decimal digit characters. -/
def natOfDigits (cs : List Char) : Nat :=
  cs.foldl (fun a c => 10 * a + (c.toNat - 48)) 0

/-- One element of the sort key produced by natural_sort_key: an integer
for a digit run, a lowercased string otherwise. -/
inductive SortToken where
  | str (s : List Char)
  | num (n : Nat)
deriving DecidableEq, Repr

/-- natural_sort_key of utils/helpers.py line 328: split the string on
digit runs, turning each digit run into an integer and lowercasing every
other piece.  Digit detection is modelled for the ASCII digits matched by
the pattern of the source. -/
def natural_sort_key (s : String) : List SortToken :=
  (splitDigitRuns s.data).map (fun t =>
    if t ≠ [] ∧ t.all Char.isDigit then .num (natOfDigits t)
    else .str (t.map Char.toLower))

/-- Python string comparison: lexicographic on code points, a strict
prefix is smaller. -/
def charListLt : List Char → List Char → Bool
  | [], [] => false
  | [], _ :: _ => true
  | _ :: _, [] => false
  | a :: as, b :: bs =>
    if a.toNat < b.toNat then true
    else if b.toNat < a.toNat then false
    else charListLt as bs

/-- Comparison of two sort-key elements as Python performs it inside a
list comparison.  Comparing an integer with a string raises a TypeError in
Python; keys produced from strings of the same shape never hit that case,
and it is modelled as false. -/
def tokLt : SortToken → SortToken → Bool
  | .str a, .str b => charListLt a b
  | .num a, .num b => decide (a < b)
  | .str _, .num _ => false
  | .num _, .str _ => false

/-- Python list comparison on sort keys: lexicographic, a strict prefix is
smaller. -/
def keyLt : List SortToken → List SortToken → Bool
  | [], [] => false
  | [], _ :: _ => true
  | _ :: _, [] => false
  | a :: as, b :: bs =>
    if tokLt a b then true
    else if tokLt b a then false
    else keyLt as bs

/-- Stable insertion of a string into a list already sorted by
natural_sort_key, placing it after entries with an equal key, as Python's
stable sort does. -/
def insertByNaturalKey (x : String) : List String → List String
  | [] => [x]
  | y :: ys =>
    if keyLt (natural_sort_key x) (natural_sort_key y) then x :: y :: ys
    else y :: insertByNaturalKey x ys

/-- Sorting a list of episode-info strings with natural_sort_key as the
key function, as create_post does at utils/helpers.py line 262. -/
def sortByNaturalKey (l : List String) : List String :=
  l.foldr insertByNaturalKey []

/-- Stable insertion under plain lexicographic string comparison, used to
contrast the natural order with the lexicographic one. -/
def insertByLex (x : String) : List String → List String
  | [] => [x]
  | y :: ys =>
    if charListLt x.data y.data then x :: y :: ys
    else y :: insertByLex x ys

/-- Sorting by plain lexicographic string comparison. -/
def sortByLex (l : List String) : List String :=
  l.foldr insertByLex []

/-- Empty bot state used by the concrete instantiations below. -/
def initState : BotState :=
  { openBatches := fun _ => none,
    processingUsers := fun _ => false,
    waitingFiles := fun _ => [],
    liveTimers := [],
    nextTimer := 0,
    unfinished := 0,
    isInFloodWait := false }

/-- Configuration with an owner database channel set. -/
def cfg0 : BotConfig := { ownerDbChannel := some (-100) }

/-- A file event whose media carries a 600 second duration. -/
def shortEvent : FileEvent :=
  { userId := 7,
    media := some { fileName := "clip.mkv", duration := some 600 },
    indexChannel := none,
    copyResult := none }

/-- Accumulated message list of the user's open window, when one is open. -/
def windowMessages (s : BotState) (u : Nat) : Option (List Nat) :=
  (s.openBatches u).map (fun cd => cd.messages)

/-- State in which user 7 is being finalized. -/
def lockedState7 : BotState :=
  { initState with processingUsers := upd initState.processingUsers 7 true, unfinished := 1 }

/-- A well-formed file event of user 7 that reaches the copy stage. -/
def lockedEvent7 : FileEvent :=
  { userId := 7,
    media := some { fileName := "a.mkv", duration := none },
    indexChannel := some 5,
    copyResult := some 42 }

/-- State in which user 7 has two queued waiting files. -/
def drainState7 : BotState :=
  { initState with waitingFiles := upd initState.waitingFiles 7 [41, 42] }

/-- Environment for a finalize run with every external call succeeding and
a trivial similarity oracle. -/
def env0 : FinalizeEnv :=
  { infoOf := fun _ => none,
    sim := fun _ _ => 0,
    userFound := true,
    postChannel := some (-200),
    channelValid := true,
    raiseUnexpected := false }

/-- An open collection window for user 7 holding one message. -/
def openState7 : BotState :=
  { initState with
    openBatches := upd initState.openBatches 7
      (some { messages := [1], skippedFiles := [], timer := some 0 }),
    liveTimers := [(0, 7)],
    nextTimer := 1,
    unfinished := 1 }

/-- A file event of user 7 whose media carries duration 0. -/
def zeroDurEvent : FileEvent :=
  { userId := 7,
    media := some { fileName := "zero.mkv", duration := some 0 },
    indexChannel := some 5,
    copyResult := some 42 }

/-- State of user 7 with an open window holding message 5 and an empty
skipped list. -/
def rejState7 : BotState :=
  { initState with
    openBatches := upd initState.openBatches 7
      (some { messages := [5], skippedFiles := [], timer := some 0 }),
    liveTimers := [(0, 7)],
    nextTimer := 1 }

/-- Two well-formed events of user 7 with distinct archived copies. -/
def fifoEventA : FileEvent :=
  { userId := 7,
    media := some { fileName := "a.mkv", duration := none },
    indexChannel := some 5,
    copyResult := some 21 }

/-- A second well-formed event of user 7. -/
def fifoEventB : FileEvent :=
  { userId := 7,
    media := some { fileName := "b.mkv", duration := some 2000 },
    indexChannel := none,
    copyResult := some 22 }

/-- Live pending finalization triggers belonging to one user's window. -/
def timersFor (s : BotState) (u : Nat) : List (Nat × Nat) :=
  s.liveTimers.filter (fun p => p.2 = u)

/-- The timer discipline invariant: live timer handles are distinct and
below the fresh counter, and every live timer belongs to an open window
whose timer field holds exactly that handle. -/
def TimerInv (s : BotState) : Prop :=
  s.liveTimers.Nodup ∧
  (∀ p ∈ s.liveTimers, p.1 < s.nextTimer) ∧
  (∀ p ∈ s.liveTimers, ∃ cd, s.openBatches p.2 = some cd ∧ cd.timer = some p.1)

/-- Tracked length contribution of a page of entries, mirroring the
running current_length bookkeeping of create_post: every entry accounts
for its own length plus the two-character separator. -/
def entrySum (part : List String) : Nat :=
  part.foldl (fun a e => a + e.length + 2) 0

/-- A link entry far longer than the photo caption limit. -/
def longEntry : String := String.mk (List.replicate 1100 'a')

/-- C9: sorting episode-info strings with natural_sort_key compares digit
runs as integers: the keys E2, E10, E1 sort into E1, E2, E10, while plain
lexicographic string comparison would yield E1, E10, E2, and the key of
"episode 9" compares below the key of "episode 10". -/
theorem c9_natural_episode_order :
    sortByNaturalKey ["E2", "E10", "E1"] = ["E1", "E2", "E10"] ∧
    sortByLex ["E2", "E10", "E1"] = ["E1", "E10", "E2"] ∧
    keyLt (natural_sort_key "episode 9") (natural_sort_key "episode 10") = true := by
  decide

/-- C6: evaluating the worker at a failing input.  With a single queued
event whose media duration is short, the skip branch calls task_done
inside the try block and the finally clause calls it a second time; the
second call raises a ValueError that escapes the per-event boundary, so
the worker loop crashes and a second queued event is never processed
(its actions never happen). -/
theorem c6_worker_crash_on_short_file :
    (runWorker cfg0 { initState with unfinished := 1 } [shortEvent]).err
      = some WorkerErr.valueError ∧
    (runWorker cfg0 { initState with unfinished := 2 } [shortEvent, shortEvent]).err
      = some WorkerErr.valueError ∧
    (runWorker cfg0 { initState with unfinished := 2 } [shortEvent, shortEvent]).acts
      = [WorkerAction.skipShort 7 "clip.mkv", WorkerAction.skipShort 7 "clip.mkv"] := by
  refine ⟨rfl, rfl, rfl⟩

theorem workerStep_openBatches (cfg : BotConfig) (s : BotState) (e : FileEvent) :
    (workerStep cfg s e).1.openBatches = (workerBody cfg s e).1.openBatches := by
  cases h : taskDone (workerBody cfg s e).1.unfinished <;> simp [workerStep, h]

theorem workerStep_waitingFiles (cfg : BotConfig) (s : BotState) (e : FileEvent) :
    (workerStep cfg s e).1.waitingFiles = (workerBody cfg s e).1.waitingFiles := by
  cases h : taskDone (workerBody cfg s e).1.unfinished <;> simp [workerStep, h]

theorem workerStep_processingUsers (cfg : BotConfig) (s : BotState) (e : FileEvent) :
    (workerStep cfg s e).1.processingUsers = (workerBody cfg s e).1.processingUsers := by
  cases h : taskDone (workerBody cfg s e).1.unfinished <;> simp [workerStep, h]

theorem workerStep_liveTimers (cfg : BotConfig) (s : BotState) (e : FileEvent) :
    (workerStep cfg s e).1.liveTimers = (workerBody cfg s e).1.liveTimers := by
  cases h : taskDone (workerBody cfg s e).1.unfinished <;> simp [workerStep, h]

theorem workerStep_acts (cfg : BotConfig) (s : BotState) (e : FileEvent) :
    (workerStep cfg s e).2.1 = (workerBody cfg s e).2 := by
  cases h : taskDone (workerBody cfg s e).1.unfinished <;> simp [workerStep, h]

theorem workerBody_locked_windows (cfg : BotConfig) (s : BotState) (e : FileEvent)
    (h : s.processingUsers e.userId = true) (u : Nat) :
    windowMessages (workerBody cfg s e).1 u = windowMessages s u := by
  unfold workerBody
  cases hm : e.media with
  | none => rfl
  | some media =>
    by_cases hs : isShortDuration media = true
    · simp only [hs, if_true]
      cases hw : s.openBatches e.userId with
      | none =>
        simp only []
        split <;> rfl
      | some cd =>
        simp only []
        split <;>
          · simp only [windowMessages, upd]
            by_cases hu : u = e.userId
            · subst hu
              simp [hw]
            · simp [hu]
    · simp only [hs]
      simp only [Bool.false_eq_true, if_false]
      cases e.indexChannel.orElse (fun _ => cfg.ownerDbChannel) with
      | none => rfl
      | some ch =>
        cases e.copyResult with
        | none => rfl
        | some copied =>
          simp only [h, if_true]
          rfl

theorem workerBody_locked_append (cfg : BotConfig) (s : BotState) (e : FileEvent)
    (h : s.processingUsers e.userId = true)
    (media : Media) (hm : e.media = some media) (hs : isShortDuration media = false)
    (hch : (e.indexChannel.orElse (fun _ => cfg.ownerDbChannel)).isSome = true)
    (c : Nat) (hc : e.copyResult = some c) :
    (workerBody cfg s e).1.waitingFiles e.userId = s.waitingFiles e.userId ++ [c] ∧
    (workerBody cfg s e).1.openBatches = s.openBatches ∧
    (workerBody cfg s e).1.liveTimers = s.liveTimers ∧
    WorkerAction.appendWaiting e.userId c ∈ (workerBody cfg s e).2 := by
  obtain ⟨ch, hch2⟩ := Option.isSome_iff_exists.mp hch
  unfold workerBody
  rw [hm]
  simp only [hs, Bool.false_eq_true, if_false]
  rw [hch2, hc]
  simp only [h, if_true]
  simp [upd]

/-- C1: while a user's id is in processing_users, the worker iteration
leaves the accumulated message list of every open window untouched, and an
event that reaches the copy stage (media present, not short, archive
channel resolvable, copy succeeded) has its copied message appended to the
user's waiting_files, with open_batches and the timers unchanged. -/
theorem c1_lock_exclusion (cfg : BotConfig) (s : BotState) (e : FileEvent)
    (h : s.processingUsers e.userId = true) :
    (∀ u, windowMessages (workerStep cfg s e).1 u = windowMessages s u) ∧
    (∀ media c, e.media = some media → isShortDuration media = false →
      (e.indexChannel.orElse (fun _ => cfg.ownerDbChannel)).isSome = true →
      e.copyResult = some c →
      (workerStep cfg s e).1.waitingFiles e.userId = s.waitingFiles e.userId ++ [c] ∧
      (workerStep cfg s e).1.openBatches = s.openBatches ∧
      (workerStep cfg s e).1.liveTimers = s.liveTimers ∧
      WorkerAction.appendWaiting e.userId c ∈ (workerStep cfg s e).2.1) := by
  constructor
  · intro u
    have hb := workerBody_locked_windows cfg s e h u
    simpa [windowMessages, workerStep_openBatches] using hb
  · intro media c hm hs hch hc
    have hb := workerBody_locked_append cfg s e h media hm hs hch c hc
    refine ⟨?_, ?_, ?_, ?_⟩
    · rw [workerStep_waitingFiles]
      exact hb.1
    · rw [workerStep_openBatches]
      exact hb.2.1
    · rw [workerStep_liveTimers]
      exact hb.2.2.1
    · rw [workerStep_acts]
      exact hb.2.2.2

/-- Witness for c1_lock_exclusion at a concrete locked state and event. -/
theorem c1_lock_exclusion_w :
    (workerStep cfg0 lockedState7 lockedEvent7).1.waitingFiles 7
      = lockedState7.waitingFiles 7 ++ [42] ∧
    (workerStep cfg0 lockedState7 lockedEvent7).1.openBatches = lockedState7.openBatches := by
  have h := c1_lock_exclusion cfg0 lockedState7 lockedEvent7 rfl
  have h2 := h.2 { fileName := "a.mkv", duration := none } 42 rfl rfl rfl rfl
  exact ⟨h2.1, h2.2.1⟩

theorem finalizeBody_processingUsers (env : FinalizeEnv) (s : BotState) (u : Nat) :
    (finalizeBody env s u).1.processingUsers = s.processingUsers := by
  unfold finalizeBody
  repeat' split <;> try rfl

theorem finalizeBody_waitingFiles (env : FinalizeEnv) (s : BotState) (u : Nat) :
    (finalizeBody env s u).1.waitingFiles = s.waitingFiles := by
  unfold finalizeBody
  repeat' split <;> try rfl

/-- C2: when no flood wait forces a silent reschedule, every run of
_finalize_collection ends with the user absent from processing_users
(every exit path of the try-block runs the same finally clause), and when
waiting_files holds queued messages at that moment a brand-new collection
window is created holding exactly those messages in their original order,
with the pending queue emptied. -/
theorem c2_unlock_and_drain (env : FinalizeEnv) (s : BotState) (u : Nat)
    (h : s.isInFloodWait = false) :
    (finalizeStep env s u).state.processingUsers u = false ∧
    (∀ w ws, s.waitingFiles u = w :: ws →
      ∃ cd, (finalizeStep env s u).state.openBatches u = some cd ∧
        cd.messages = s.waitingFiles u ∧
        (finalizeStep env s u).state.waitingFiles u = []) := by
  constructor
  · unfold finalizeStep
    simp only [h, Bool.false_eq_true, if_false]
    split
    · simp [upd]
    · simp [startNewCollection, upd]
  · intro w ws hw
    unfold finalizeStep
    simp only [h, Bool.false_eq_true, if_false, finalizeBody_waitingFiles]
    rw [hw]
    simp [startNewCollection, upd, hw]

/-- Witness for c2_unlock_and_drain at a concrete state with a non-empty
pending queue. -/
theorem c2_unlock_and_drain_w :
    (finalizeStep env0 drainState7 7).state.processingUsers 7 = false ∧
    ∃ cd, (finalizeStep env0 drainState7 7).state.openBatches 7 = some cd ∧
      cd.messages = drainState7.waitingFiles 7 ∧
      (finalizeStep env0 drainState7 7).state.waitingFiles 7 = [] := by
  have h := c2_unlock_and_drain env0 drainState7 7 rfl
  exact ⟨h.1, h.2 41 [42] rfl⟩

theorem workerBody_short (cfg : BotConfig) (s : BotState) (e : FileEvent)
    (media : Media) (hm : e.media = some media) (hs : isShortDuration media = true) :
    (workerBody cfg s e).2 = [WorkerAction.skipShort e.userId media.fileName] ∧
    (workerBody cfg s e).1.waitingFiles = s.waitingFiles ∧
    (workerBody cfg s e).1.liveTimers = s.liveTimers ∧
    (s.openBatches e.userId = none → (workerBody cfg s e).1.openBatches = s.openBatches) ∧
    (∀ cd, s.openBatches e.userId = some cd →
      (workerBody cfg s e).1.openBatches = upd s.openBatches e.userId
        (some { cd with skippedFiles := cd.skippedFiles ++ [media.fileName] })) := by
  unfold workerBody
  rw [hm]
  simp only [hs, if_true]
  cases hw : s.openBatches e.userId with
  | none =>
    split <;> simp
  | some cd =>
    split <;> simp

/-- C10 counterexample: a media object carrying duration 0 (which is under
1200 seconds) is not skipped by the code, because the truthiness test on
media.duration fails for 0: the file is archived (the copy call happens),
its name is not appended to skipped_files of the user's open window, and
the copied message is appended to the window instead. -/
theorem c10_cex_zero_duration :
    (workerStep cfg0 openState7 zeroDurEvent).2.1
      = [WorkerAction.copyCall 7, WorkerAction.saveFileData 7 42,
         WorkerAction.appendWindow 7 42] ∧
    (workerStep cfg0 openState7 zeroDurEvent).1.openBatches 7
      = some { messages := [1, 42], skippedFiles := [], timer := some 1 } := by
  refine ⟨rfl, rfl⟩

/-- C10 as amended: any file whose media carries a truthy (nonzero)
duration under 1200 seconds is skipped before archiving: no copy call
happens (the only observable action is the skip), the file name is
appended to the user's skipped_files exactly when that user has an open
collection window, and when no window is open the state of windows,
timers and waiting files is untouched (no window is created). -/
theorem c10_short_duration_policy (cfg : BotConfig) (s : BotState) (e : FileEvent)
    (media : Media) (d : Nat) (hm : e.media = some media) (hd : media.duration = some d)
    (h0 : d ≠ 0) (hlt : d < 1200) :
    (workerStep cfg s e).2.1 = [WorkerAction.skipShort e.userId media.fileName] ∧
    (workerStep cfg s e).1.waitingFiles = s.waitingFiles ∧
    (workerStep cfg s e).1.liveTimers = s.liveTimers ∧
    (s.openBatches e.userId = none → (workerStep cfg s e).1.openBatches = s.openBatches) ∧
    (∀ cd, s.openBatches e.userId = some cd →
      (workerStep cfg s e).1.openBatches = upd s.openBatches e.userId
        (some { cd with skippedFiles := cd.skippedFiles ++ [media.fileName] })) := by
  have hs : isShortDuration media = true := by
    unfold isShortDuration
    rw [hd]
    simp [h0, hlt]
  have hb := workerBody_short cfg s e media hm hs
  rw [workerStep_acts, workerStep_waitingFiles, workerStep_liveTimers, workerStep_openBatches]
  exact hb

/-- Witness for c10_short_duration_policy: a 600 second file for a user
with no open window is dropped without archiving and without creating a
window. -/
theorem c10_short_duration_policy_w :
    (workerStep cfg0 { initState with unfinished := 2 } shortEvent).2.1
      = [WorkerAction.skipShort 7 "clip.mkv"] ∧
    (workerStep cfg0 { initState with unfinished := 2 } shortEvent).1.openBatches
      = ({ initState with unfinished := 2 } : BotState).openBatches := by
  have h := c10_short_duration_policy cfg0 { initState with unfinished := 2 } shortEvent
    { fileName := "clip.mkv", duration := some 600 } 600 rfl rfl (by decide) (by decide)
  exact ⟨h.1, h.2.2.2.1 rfl⟩

theorem bestFold_snd (sim : String → String → Nat) (t : String) (keys : List String) :
    ∀ acc : Option String × Nat,
      (keys.foldl (bestFoldStep sim t) acc).2
        = keys.foldl (fun a k => max a (sim t k)) acc.2 := by
  induction keys with
  | nil => intro acc; rfl
  | cons k ks ih =>
    intro acc
    rw [List.foldl_cons, List.foldl_cons, ih]
    congr 1
    unfold bestFoldStep
    by_cases hlt : acc.2 < sim t k
    · simp [hlt, Nat.max_eq_right (Nat.le_of_lt hlt)]
    · simp [hlt, Nat.max_eq_left (Nat.le_of_not_lt hlt)]

theorem bestFold_ge (sim : String → String → Nat) (t : String) (keys : List String) :
    ∀ acc : Option String × Nat, acc.2 ≤ (keys.foldl (bestFoldStep sim t) acc).2 := by
  induction keys with
  | nil => intro acc; exact le_refl _
  | cons k ks ih =>
    intro acc
    rw [List.foldl_cons]
    refine le_trans ?_ (ih (bestFoldStep sim t acc k))
    unfold bestFoldStep
    by_cases hlt : acc.2 < sim t k
    · simp only [hlt, if_true]
      exact Nat.le_of_lt hlt
    · simp [hlt]

theorem bestFold_stay (sim : String → String → Nat) (t : String) (keys : List String) :
    ∀ acc : Option String × Nat,
      (keys.foldl (bestFoldStep sim t) acc).2 = acc.2 →
      (keys.foldl (bestFoldStep sim t) acc).1 = acc.1 := by
  induction keys with
  | nil => intro acc _; rfl
  | cons k ks ih =>
    intro acc h
    rw [List.foldl_cons] at h ⊢
    by_cases hlt : acc.2 < sim t k
    · exfalso
      have h1 : (bestFoldStep sim t acc k).2 = sim t k := by
        simp [bestFoldStep, hlt]
      have h2 := bestFold_ge sim t ks (bestFoldStep sim t acc k)
      rw [h1, h] at h2
      exact absurd (lt_of_lt_of_le hlt h2) (lt_irrefl _)
    · have hstep : bestFoldStep sim t acc k = acc := by
        simp [bestFoldStep, hlt]
      rw [hstep] at h ⊢
      exact ih acc h

theorem bestFold_find (sim : String → String → Nat) (t : String) (keys : List String) :
    ∀ acc : Option String × Nat,
      acc.2 < (keys.foldl (bestFoldStep sim t) acc).2 →
      (keys.foldl (bestFoldStep sim t) acc).1
        = keys.find? (fun k => decide (sim t k = (keys.foldl (bestFoldStep sim t) acc).2)) := by
  induction keys with
  | nil => intro acc h; exact absurd h (lt_irrefl _)
  | cons k ks ih =>
    intro acc h
    rw [List.foldl_cons] at h ⊢
    by_cases hlt : acc.2 < sim t k
    · have hstep : bestFoldStep sim t acc k = (some k, sim t k) := by
        simp [bestFoldStep, hlt]
      rw [hstep] at h ⊢
      by_cases heq : (ks.foldl (bestFoldStep sim t) (some k, sim t k)).2 = sim t k
      · have h1 := bestFold_stay sim t ks (some k, sim t k) heq
        rw [h1]
        rw [List.find?_cons_of_pos]
        simp [heq]
      · have hge := bestFold_ge sim t ks (some k, sim t k)
        have hlt2 : sim t k < (ks.foldl (bestFoldStep sim t) (some k, sim t k)).2 :=
          lt_of_le_of_ne hge (fun hh => heq hh.symm)
        have hIH := ih (some k, sim t k) hlt2
        rw [hIH]
        rw [List.find?_cons_of_neg]
        simp only [decide_eq_true_eq]
        omega
    · have hstep : bestFoldStep sim t acc k = acc := by
        simp [bestFoldStep, hlt]
      rw [hstep] at h ⊢
      have hIH := ih acc h
      rw [hIH]
      rw [List.find?_cons_of_neg]
      simp only [decide_eq_true_eq]
      have hle : sim t k ≤ acc.2 := Nat.le_of_not_lt hlt
      omega

theorem bestExisting_snd (sim : String → String → Nat) (t : String) (keys : List String) :
    (bestExisting sim t keys).2 = (keys.map (sim t)).foldl max 0 := by
  unfold bestExisting
  rw [List.foldl_map]
  exact bestFold_snd sim t keys (none, 0)

theorem bestExisting_find (sim : String → String → Nat) (t : String) (keys : List String)
    (h : 0 < (bestExisting sim t keys).2) :
    (bestExisting sim t keys).1
      = keys.find? (fun k => decide (sim t k = (bestExisting sim t keys).2)) := by
  unfold bestExisting at h ⊢
  exact bestFold_find sim t keys (none, 0) h

theorem groupStep_eq_spec (sim : String → String → Nat) (bs : List (String × List Nat))
    (p : Nat × Option Info) : groupStep sim bs p = specPartitionStep sim bs p := by
  unfold groupStep specPartitionStep
  cases hp : p.2 with
  | none => rfl
  | some info =>
    by_cases ht : info.batchTitle = ""
    · simp [ht]
    · simp only [ht, if_false]
      rw [← bestExisting_snd]
      by_cases hth : SIMILARITY_THRESHOLD < (bestExisting sim info.batchTitle (bs.map Prod.fst)).2
      · simp only [hth, if_true]
        have h0 : (0 : Nat) < (bestExisting sim info.batchTitle (bs.map Prod.fst)).2 :=
          lt_of_le_of_lt (Nat.zero_le _) hth
        rw [bestExisting_find sim info.batchTitle (bs.map Prod.fst) h0]
      · simp [hth]

theorem groupStep_sublist (sim : String → String → Nat) (bs : List (String × List Nat))
    (p : Nat × Option Info) (seen : List Nat) (h : ∀ b ∈ bs, b.2.Sublist seen) :
    ∀ b ∈ groupStep sim bs p, b.2.Sublist (seen ++ [p.1]) := by
  have hkeep : ∀ b ∈ bs, b.2.Sublist (seen ++ [p.1]) := by
    intro b hb
    exact (h b hb).trans (List.sublist_append_left seen [p.1])
  intro b hb
  unfold groupStep at hb
  cases hp : p.2 with
  | none =>
    rw [hp] at hb
    exact hkeep b hb
  | some info =>
    rw [hp] at hb
    dsimp only at hb
    by_cases ht : info.batchTitle = ""
    · rw [if_pos ht] at hb
      exact hkeep b hb
    · rw [if_neg ht] at hb
      by_cases hth : SIMILARITY_THRESHOLD
          < (bestExisting sim info.batchTitle (bs.map Prod.fst)).2
      · rw [if_pos hth] at hb
        cases hbest : (bestExisting sim info.batchTitle (bs.map Prod.fst)).1 with
        | none =>
          rw [hbest] at hb
          exact hkeep b hb
        | some k =>
          rw [hbest] at hb
          unfold dictAppend at hb
          obtain ⟨b0, hb0, hfb⟩ := List.mem_map.mp hb
          by_cases hk : b0.1 = k
          · rw [if_pos hk] at hfb
            subst hfb
            exact (h b0 hb0).append (List.Sublist.refl [p.1])
          · rw [if_neg hk] at hfb
            subst hfb
            exact hkeep b0 hb0
      · rw [if_neg hth] at hb
        unfold dictSet at hb
        by_cases hmem : bs.any (fun q => q.1 = info.batchTitle) = true
        · rw [if_pos hmem] at hb
          obtain ⟨b0, hb0, hfb⟩ := List.mem_map.mp hb
          by_cases hk : b0.1 = info.batchTitle
          · rw [if_pos hk] at hfb
            subst hfb
            simp
          · rw [if_neg hk] at hfb
            subst hfb
            exact hkeep b0 hb0
        · rw [if_neg hmem] at hb
          rcases List.mem_append.mp hb with hb1 | hb2
          · exact hkeep b hb1
          · have hb3 : b = (info.batchTitle, [p.1]) := by simpa using hb2
            subst hb3
            simp

theorem groupBatches_sublist_aux (sim : String → String → Nat) :
    ∀ (ps : List (Nat × Option Info)) (bs : List (String × List Nat)) (seen : List Nat),
      (∀ b ∈ bs, b.2.Sublist seen) →
      ∀ b ∈ ps.foldl (groupStep sim) bs, b.2.Sublist (seen ++ ps.map Prod.fst) := by
  intro ps
  induction ps with
  | nil =>
    intro bs seen h b hb
    simpa using h b hb
  | cons p ps ih =>
    intro bs seen h b hb
    rw [List.foldl_cons] at hb
    have hstep := groupStep_sublist sim bs p seen h
    have := ih (groupStep sim bs p) (seen ++ [p.1]) hstep b hb
    simpa [List.append_assoc] using this

/-- C4: the grouping pass of the Finalization Pipeline is the single
stable pass the specification describes: it equals, file by file in
arrival order, the spec-side partition that compares each file title only
against the keys of already-formed batches, assigns the file to the first
batch attaining the best score when that score strictly exceeds the
threshold 85, and otherwise starts a new batch keyed by the file's own
title; moreover each produced batch lists its messages as a subsequence of
the window's arrival order (no re-sorting before grouping). -/
theorem c4_single_pass_grouping (sim : String → String → Nat)
    (ps : List (Nat × Option Info)) :
    groupBatches sim ps = specPartition sim ps ∧
    ∀ b ∈ groupBatches sim ps, b.2.Sublist (ps.map Prod.fst) := by
  constructor
  · unfold groupBatches specPartition
    have hfun : groupStep sim = specPartitionStep sim :=
      funext fun bs => funext fun p => groupStep_eq_spec sim bs p
    rw [hfun]
  · intro b hb
    have := groupBatches_sublist_aux sim ps [] [] (by simp) b hb
    simpa using this

theorem groupStep_rejected (sim : String → String → Nat) (bs : List (String × List Nat))
    (p : Nat × Option Info) (m : Nat) (h : ∀ b ∈ bs, m ∉ b.2)
    (hp : p.1 = m → p.2 = none ∨ ∃ i, p.2 = some i ∧ i.batchTitle = "") :
    ∀ b ∈ groupStep sim bs p, m ∉ b.2 := by
  intro b hb
  unfold groupStep at hb
  cases hinfo : p.2 with
  | none =>
    rw [hinfo] at hb
    exact h b hb
  | some info =>
    rw [hinfo] at hb
    dsimp only at hb
    by_cases ht : info.batchTitle = ""
    · rw [if_pos ht] at hb
      exact h b hb
    · rw [if_neg ht] at hb
      have hne : p.1 ≠ m := by
        intro hcontra
        rcases hp hcontra with h1 | ⟨i, h2, h3⟩
        · rw [hinfo] at h1
          exact Option.noConfusion h1
        · rw [hinfo] at h2
          have h4 : info = i := Option.some.inj h2
          rw [h4] at ht
          exact ht h3
      by_cases hth : SIMILARITY_THRESHOLD
          < (bestExisting sim info.batchTitle (bs.map Prod.fst)).2
      · rw [if_pos hth] at hb
        cases hbest : (bestExisting sim info.batchTitle (bs.map Prod.fst)).1 with
        | none =>
          rw [hbest] at hb
          exact h b hb
        | some k =>
          rw [hbest] at hb
          unfold dictAppend at hb
          obtain ⟨b0, hb0, hfb⟩ := List.mem_map.mp hb
          by_cases hk : b0.1 = k
          · rw [if_pos hk] at hfb
            subst hfb
            intro hmem
            rcases List.mem_append.mp hmem with h1 | h2
            · exact h b0 hb0 h1
            · have h3 : m = p.1 := by simpa using h2
              exact hne h3.symm
          · rw [if_neg hk] at hfb
            subst hfb
            exact h b0 hb0
      · rw [if_neg hth] at hb
        unfold dictSet at hb
        by_cases hmem : bs.any (fun q => q.1 = info.batchTitle) = true
        · rw [if_pos hmem] at hb
          obtain ⟨b0, hb0, hfb⟩ := List.mem_map.mp hb
          by_cases hk : b0.1 = info.batchTitle
          · rw [if_pos hk] at hfb
            subst hfb
            intro h2
            have h3 : m = p.1 := by simpa using h2
            exact hne h3.symm
          · rw [if_neg hk] at hfb
            subst hfb
            exact h b0 hb0
        · rw [if_neg hmem] at hb
          rcases List.mem_append.mp hb with hb1 | hb2
          · exact h b hb1
          · have hb3 : b = (info.batchTitle, [p.1]) := by simpa using hb2
            subst hb3
            intro h2
            have h3 : m = p.1 := by simpa using h2
            exact hne h3.symm

theorem groupBatches_rejected_aux (sim : String → String → Nat) (m : Nat) :
    ∀ (ps : List (Nat × Option Info)) (bs : List (String × List Nat)),
      (∀ b ∈ bs, m ∉ b.2) →
      (∀ p ∈ ps, p.1 = m → p.2 = none ∨ ∃ i, p.2 = some i ∧ i.batchTitle = "") →
      ∀ b ∈ ps.foldl (groupStep sim) bs, m ∉ b.2 := by
  intro ps
  induction ps with
  | nil =>
    intro bs h _ b hb
    exact h b hb
  | cons p ps ih =>
    intro bs h hrej b hb
    rw [List.foldl_cons] at hb
    have hstep := groupStep_rejected sim bs p m h (hrej p (List.mem_cons_self p ps))
    exact ih (groupStep sim bs p) hstep
      (fun q hq => hrej q (List.mem_cons_of_mem p hq)) b hb

theorem finalizeBody_dash_batches (env : FinalizeEnv) (s : BotState) (u : Nat)
    (cd : CollectionData) (hw : s.openBatches u = some cd) :
    (finalizeBody env s u).2.1 = some cd ∧
    ((finalizeBody env s u).2.2.1 = [] ∨
      (finalizeBody env s u).2.2.1
        = groupBatches env.sim (cd.messages.map (fun m => (m, env.infoOf m)))) := by
  unfold finalizeBody
  rw [hw]
  dsimp only
  repeat' split
  all_goals first
    | exact ⟨rfl, Or.inl rfl⟩
    | exact ⟨rfl, Or.inr rfl⟩

/-- C7 counterexample: when the title oracle rejects the only file of the
window (env0 returns none for every message), the finalization run
excludes the file from batching but does not record it anywhere: the
popped collection data still carries an empty skipped_files list, so
nothing new is shown in the dashboard's skipped list. -/
theorem c7_cex_not_recorded :
    (finalizeStep env0 rejState7 7).dashData
      = some { messages := [5], skippedFiles := [], timer := some 0 } ∧
    (finalizeStep env0 rejState7 7).batches = [] ∧
    (finalizeStep env0 rejState7 7).state.openBatches 7 = none := by
  refine ⟨rfl, rfl, rfl⟩

/-- C7 as amended: a file whose oracle result is missing or has a falsy
batch_title is excluded from batching, so it appears in no posted batch;
it is not added to the window's skipped_files, which the finalization run
leaves exactly as they were collected (only the short-duration check at
ingest ever appends to skipped_files). -/
theorem c7_rejected_excluded (env : FinalizeEnv) (s : BotState) (u : Nat)
    (cd : CollectionData) (m : Nat)
    (hflood : s.isInFloodWait = false)
    (hw : s.openBatches u = some cd)
    (hrej : env.infoOf m = none ∨ ∃ i, env.infoOf m = some i ∧ i.batchTitle = "") :
    (finalizeStep env s u).dashData = some cd ∧
    ∀ b ∈ (finalizeStep env s u).batches, m ∉ b.2 := by
  have hc : ¬(s.isInFloodWait = true) := by simp [hflood]
  have hbody := finalizeBody_dash_batches env
    { s with processingUsers := upd s.processingUsers u true } u cd hw
  unfold finalizeStep
  rw [if_neg hc]
  constructor
  · exact hbody.1
  · intro b hb
    dsimp only at hb
    rcases hbody.2 with hempty | hgroup
    · rw [hempty] at hb
      exact absurd hb (List.not_mem_nil b)
    · rw [hgroup] at hb
      refine groupBatches_rejected_aux env.sim m
        (cd.messages.map (fun m2 => (m2, env.infoOf m2))) [] (by simp) ?_ b hb
      intro p hp hpm
      obtain ⟨m2, _, hm2⟩ := List.mem_map.mp hp
      rw [← hm2] at hpm ⊢
      dsimp only at hpm ⊢
      rw [hpm]
      exact hrej

/-- Witness for c7_rejected_excluded at the concrete rejecting
environment. -/
theorem c7_rejected_excluded_w :
    (finalizeStep env0 rejState7 7).dashData
      = some { messages := [5], skippedFiles := [], timer := some 0 } ∧
    ∀ b ∈ (finalizeStep env0 rejState7 7).batches, 5 ∉ b.2 := by
  have h := c7_rejected_excluded env0 rejState7 7
    { messages := [5], skippedFiles := [], timer := some 0 } 5 rfl rfl (Or.inl rfl)
  exact h

theorem workerBody_good_append (cfg : BotConfig) (s : BotState) (e : FileEvent)
    (media : Media) (ch : Int) (c : Nat) (cd : CollectionData)
    (hm : e.media = some media) (hs : isShortDuration media = false)
    (hch : e.indexChannel.orElse (fun _ => cfg.ownerDbChannel) = some ch)
    (hc : e.copyResult = some c)
    (hlock : s.processingUsers e.userId = false)
    (hw : s.openBatches e.userId = some cd) :
    (workerBody cfg s e).1.openBatches = upd s.openBatches e.userId
      (some { cd with messages := cd.messages ++ [c], timer := some s.nextTimer }) ∧
    (workerBody cfg s e).1.processingUsers = s.processingUsers ∧
    (workerBody cfg s e).1.waitingFiles = s.waitingFiles ∧
    (workerBody cfg s e).1.unfinished = s.unfinished := by
  unfold workerBody
  rw [hm]
  simp only [hs, Bool.false_eq_true, if_false]
  rw [hch, hc]
  simp only [hlock, Bool.false_eq_true, if_false]
  rw [hw]
  exact ⟨rfl, rfl, rfl, rfl⟩

theorem workerStep_ok_of_unfinished_ne (cfg : BotConfig) (s : BotState) (e : FileEvent)
    (h : (workerBody cfg s e).1.unfinished ≠ 0) :
    (workerStep cfg s e).2.2 = none ∧
    (workerStep cfg s e).1
      = { (workerBody cfg s e).1 with
          unfinished := (workerBody cfg s e).1.unfinished - 1 } := by
  have ht : taskDone (workerBody cfg s e).1.unfinished
      = .ok ((workerBody cfg s e).1.unfinished - 1) := by
    unfold taskDone
    rw [if_neg h]
  unfold workerStep
  simp only [ht]
  exact ⟨trivial, trivial⟩

theorem runWorker_cons_none (cfg : BotConfig) (s : BotState) (e : FileEvent)
    (es : List FileEvent) (h : (workerStep cfg s e).2.2 = none) :
    (runWorker cfg s (e :: es)).err = (runWorker cfg (workerStep cfg s e).1 es).err ∧
    (runWorker cfg s (e :: es)).state = (runWorker cfg (workerStep cfg s e).1 es).state := by
  constructor
  · conv_lhs => rw [runWorker]
    simp only [h]
  · conv_lhs => rw [runWorker]
    simp only [h]

/-- C5: the worker loop consumes a user's events one at a time in FIFO
arrival order, fully processing each before the next: for a user who is
not being finalized and has an open window, running the worker over any
queue of that user's events that all reach the copy stage appends their
copied messages to the window in exactly arrival order, and no exception
escapes any iteration. -/
theorem c5_fifo_order (cfg : BotConfig) (es : List FileEvent) :
    ∀ (s : BotState) (u : Nat) (cd : CollectionData),
      s.processingUsers u = false →
      s.openBatches u = some cd →
      es.length ≤ s.unfinished →
      (∀ e ∈ es, e.userId = u ∧
        (∃ media, e.media = some media ∧ isShortDuration media = false) ∧
        (∃ ch, e.indexChannel.orElse (fun _ => cfg.ownerDbChannel) = some ch) ∧
        e.copyResult.isSome = true) →
      (runWorker cfg s es).err = none ∧
      ∃ cd1, (runWorker cfg s es).state.openBatches u = some cd1 ∧
        cd1.messages = cd.messages ++ es.filterMap (fun e2 => e2.copyResult) := by
  induction es with
  | nil =>
    intro s u cd hlock hw hunf hall
    exact ⟨rfl, cd, hw, by simp⟩
  | cons e es ih =>
    intro s u cd hlock hw hunf hall
    obtain ⟨hu, ⟨media, hm, hsdur⟩, ⟨ch, hch⟩, hcs⟩ := hall e (List.mem_cons_self e es)
    obtain ⟨c, hc⟩ := Option.isSome_iff_exists.mp hcs
    have hlock2 : s.processingUsers e.userId = false := by rw [hu]; exact hlock
    have hw2 : s.openBatches e.userId = some cd := by rw [hu]; exact hw
    have hbody := workerBody_good_append cfg s e media ch c cd hm hsdur hch hc hlock2 hw2
    have hunf0 : (workerBody cfg s e).1.unfinished ≠ 0 := by
      rw [hbody.2.2.2]
      have hlen : es.length + 1 ≤ s.unfinished := by simpa using hunf
      omega
    have hstep := workerStep_ok_of_unfinished_ne cfg s e hunf0
    have hrun := runWorker_cons_none cfg s e es hstep.1
    have hpu1 : (workerStep cfg s e).1.processingUsers u = false := by
      rw [hstep.2]
      show (workerBody cfg s e).1.processingUsers u = false
      rw [hbody.2.1]
      exact hlock
    have hob1 : (workerStep cfg s e).1.openBatches u
        = some { cd with messages := cd.messages ++ [c], timer := some s.nextTimer } := by
      rw [hstep.2]
      show (workerBody cfg s e).1.openBatches u = _
      rw [hbody.1]
      rw [hu]
      simp [upd]
    have hunf1 : es.length ≤ (workerStep cfg s e).1.unfinished := by
      rw [hstep.2]
      show es.length ≤ (workerBody cfg s e).1.unfinished - 1
      rw [hbody.2.2.2]
      have hlen : es.length + 1 ≤ s.unfinished := by simpa using hunf
      omega
    have hih := ih (workerStep cfg s e).1 u
      { cd with messages := cd.messages ++ [c], timer := some s.nextTimer }
      hpu1 hob1 hunf1 (fun e2 he2 => hall e2 (List.mem_cons_of_mem e he2))
    refine ⟨?_, ?_⟩
    · rw [hrun.1]
      exact hih.1
    · obtain ⟨cd1, hcd1, hmsg⟩ := hih.2
      refine ⟨cd1, ?_, ?_⟩
      · rw [hrun.2]
        exact hcd1
      · rw [hmsg]
        simp [hc, List.filterMap_cons]

/-- Witness for c5_fifo_order on a two-event queue. -/
theorem c5_fifo_order_w :
    (runWorker cfg0 { openState7 with unfinished := 2 } [fifoEventA, fifoEventB]).err = none ∧
    ∃ cd1, (runWorker cfg0 { openState7 with unfinished := 2 }
        [fifoEventA, fifoEventB]).state.openBatches 7 = some cd1 ∧
      cd1.messages = [1] ++ [21, 22] := by
  have h := c5_fifo_order cfg0 [fifoEventA, fifoEventB]
    { openState7 with unfinished := 2 } 7
    { messages := [1], skippedFiles := [], timer := some 0 }
    rfl rfl (by decide)
    (by
      intro e he
      rcases List.mem_cons.mp he with h1 | h2
      · subst h1
        exact ⟨rfl, ⟨_, rfl, rfl⟩, ⟨5, rfl⟩, rfl⟩
      · have h3 : e = fifoEventB := by simpa using h2
        subst h3
        exact ⟨rfl, ⟨_, rfl, rfl⟩, ⟨-100, rfl⟩, rfl⟩)
  exact h

theorem length_le_one_of_nodup_all_eq {A : Type} (l : List A) (hnd : l.Nodup)
    (he : ∀ a ∈ l, ∀ b ∈ l, a = b) : l.length ≤ 1 := by
  match l with
  | [] => simp
  | [a] => simp
  | a :: b :: t =>
    exfalso
    have hab : a = b := he a (by simp) b (by simp)
    rcases List.nodup_cons.mp hnd with ⟨hna, _⟩
    exact hna (hab ▸ List.mem_cons_self b t)

theorem timersFor_len_le_one (s : BotState) (hInv : TimerInv s) (u : Nat) :
    (timersFor s u).length ≤ 1 := by
  obtain ⟨hnd, _, howned⟩ := hInv
  refine length_le_one_of_nodup_all_eq _ (hnd.filter _) ?_
  intro a ha b hb
  have ha2 := List.mem_filter.mp ha
  have hb2 := List.mem_filter.mp hb
  obtain ⟨cda, hwa, hta⟩ := howned a ha2.1
  obtain ⟨cdb, hwb, htb⟩ := howned b hb2.1
  have hau : a.2 = u := by simpa using ha2.2
  have hbu : b.2 = u := by simpa using hb2.2
  rw [hau] at hwa
  rw [hbu] at hwb
  rw [hwa] at hwb
  have hcd : cda = cdb := Option.some.inj hwb
  rw [← hcd] at htb
  rw [hta] at htb
  have h1 : a.1 = b.1 := Option.some.inj htb
  have h2 : a.2 = b.2 := by rw [hau, hbu]
  exact Prod.ext h1 h2

theorem TimerInv_of_fields {s1 s2 : BotState} (hInv : TimerInv s1)
    (hl : s2.liveTimers = s1.liveTimers) (hn : s2.nextTimer = s1.nextTimer)
    (ho : s2.openBatches = s1.openBatches) : TimerInv s2 := by
  obtain ⟨h1, h2, h3⟩ := hInv
  refine ⟨?_, ?_, ?_⟩
  · rw [hl]
    exact h1
  · rw [hl, hn]
    exact h2
  · rw [hl, ho]
    exact h3

theorem TimerInv_startNewCollection (s : BotState) (u : Nat) (msgs : List Nat)
    (hInv : TimerInv s) (hno : ∀ p ∈ s.liveTimers, p.2 ≠ u) :
    TimerInv (startNewCollection s u msgs) := by
  obtain ⟨hnd, hfr, how⟩ := hInv
  unfold startNewCollection
  refine ⟨?_, ?_, ?_⟩
  · simp only [List.nodup_append, List.nodup_singleton]
    refine ⟨hnd, by simp, ?_⟩
    intro p hp
    have hlt := hfr p hp
    simp only [List.mem_singleton]
    intro hcontra
    rw [hcontra] at hlt
    exact absurd hlt (lt_irrefl _)
  · intro p hp
    rcases List.mem_append.mp hp with h1 | h2
    · exact lt_trans (hfr p h1) (Nat.lt_succ_self _)
    · have hp2 : p = (s.nextTimer, u) := by simpa using h2
      rw [hp2]
      exact Nat.lt_succ_self _
  · intro p hp
    rcases List.mem_append.mp hp with h1 | h2
    · obtain ⟨cd, hw, ht⟩ := how p h1
      refine ⟨cd, ?_, ht⟩
      have hne := hno p h1
      simp only [upd]
      rw [if_neg hne]
      exact hw
    · have hp2 : p = (s.nextTimer, u) := by simpa using h2
      rw [hp2]
      refine ⟨{ messages := msgs, skippedFiles := [], timer := some s.nextTimer }, ?_, rfl⟩
      simp [upd]

theorem TimerInv_append_branch (s : BotState) (u : Nat) (cd : CollectionData) (c : Nat)
    (hInv : TimerInv s) (live1 : List (Nat × Nat)) (hsub : live1.Sublist s.liveTimers)
    (hno : ∀ p ∈ live1, p.2 ≠ u) :
    TimerInv { s with
      openBatches := upd s.openBatches u
        (some { cd with messages := cd.messages ++ [c], timer := some s.nextTimer }),
      liveTimers := live1 ++ [(s.nextTimer, u)],
      nextTimer := s.nextTimer + 1 } := by
  obtain ⟨hnd, hfr, how⟩ := hInv
  refine ⟨?_, ?_, ?_⟩
  · simp only [List.nodup_append, List.nodup_singleton]
    refine ⟨hnd.sublist hsub, by simp, ?_⟩
    intro p hp
    have hlt := hfr p (hsub.mem hp)
    simp only [List.mem_singleton]
    intro hcontra
    rw [hcontra] at hlt
    exact absurd hlt (lt_irrefl _)
  · intro p hp
    rcases List.mem_append.mp hp with h1 | h2
    · exact lt_trans (hfr p (hsub.mem h1)) (Nat.lt_succ_self _)
    · have hp2 : p = (s.nextTimer, u) := by simpa using h2
      rw [hp2]
      exact Nat.lt_succ_self _
  · intro p hp
    rcases List.mem_append.mp hp with h1 | h2
    · obtain ⟨cd2, hw2, ht2⟩ := how p (hsub.mem h1)
      refine ⟨cd2, ?_, ht2⟩
      have hne := hno p h1
      simp only [upd]
      rw [if_neg hne]
      exact hw2
    · have hp2 : p = (s.nextTimer, u) := by simpa using h2
      rw [hp2]
      refine ⟨{ cd with messages := cd.messages ++ [c], timer := some s.nextTimer },
        ?_, rfl⟩
      simp [upd]

theorem TimerInv_workerBody (cfg : BotConfig) (s : BotState) (e : FileEvent)
    (hInv : TimerInv s) : TimerInv (workerBody cfg s e).1 := by
  unfold workerBody
  cases hm : e.media with
  | none => exact hInv
  | some media =>
    dsimp only
    by_cases hs : isShortDuration media = true
    · simp only [hs, if_true]
      cases hw : s.openBatches e.userId with
      | none =>
        dsimp only
        split
        · exact TimerInv_of_fields hInv rfl rfl rfl
        · exact hInv
      | some cd =>
        dsimp only
        have hskip : TimerInv { s with openBatches := upd s.openBatches e.userId (some { cd with skippedFiles := cd.skippedFiles ++ [media.fileName] }) } := by
          obtain ⟨hnd, hfr, how⟩ := hInv
          refine ⟨hnd, hfr, ?_⟩
          intro p hp
          obtain ⟨cd2, hw2, ht2⟩ := how p hp
          by_cases hpu : p.2 = e.userId
          · rw [hpu] at hw2
            rw [hw] at hw2
            have hcd : cd2 = cd := Option.some.inj hw2.symm
            refine ⟨{ cd with skippedFiles := cd.skippedFiles ++ [media.fileName] }, ?_, ?_⟩
            · simp [upd, hpu]
            · show cd.timer = some p.1
              rw [← hcd]
              exact ht2
          · refine ⟨cd2, ?_, ht2⟩
            simp only [upd]
            rw [if_neg hpu]
            exact hw2
        split
        · exact TimerInv_of_fields hskip rfl rfl rfl
        · exact hskip
    · rw [if_neg hs]
      cases e.indexChannel.orElse (fun _ => cfg.ownerDbChannel) with
      | none => exact hInv
      | some ch =>
        cases e.copyResult with
        | none => exact hInv
        | some c =>
          dsimp only
          by_cases hlock : s.processingUsers e.userId = true
          · simp only [hlock, if_true]
            exact TimerInv_of_fields hInv rfl rfl rfl
          · rw [if_neg hlock]
            cases hw : s.openBatches e.userId with
            | none =>
              refine TimerInv_startNewCollection s e.userId [c] hInv ?_
              intro p hp hpu
              obtain ⟨cd2, hw2, _⟩ := hInv.2.2 p hp
              rw [hpu, hw] at hw2
              exact Option.noConfusion hw2
            | some cd =>
              dsimp only
              cases ht0 : cd.timer with
              | some t0 =>
                dsimp only
                refine TimerInv_append_branch s e.userId cd c hInv _
                  (List.filter_sublist s.liveTimers) ?_
                intro p hp hpu
                have hp2 := List.mem_filter.mp hp
                obtain ⟨cd2, hw2, ht2⟩ := hInv.2.2 p hp2.1
                rw [hpu, hw] at hw2
                have hcd : cd2 = cd := Option.some.inj hw2.symm
                rw [hcd, ht0] at ht2
                have hpt : p.1 = t0 := (Option.some.inj ht2).symm
                have hne := hp2.2
                simp only [decide_eq_true_eq] at hne
                exact hne hpt
              | none =>
                dsimp only
                refine TimerInv_append_branch s e.userId cd c hInv _
                  (List.Sublist.refl s.liveTimers) ?_
                intro p hp hpu
                obtain ⟨cd2, hw2, ht2⟩ := hInv.2.2 p hp
                rw [hpu, hw] at hw2
                have hcd : cd2 = cd := Option.some.inj hw2.symm
                rw [hcd, ht0] at ht2
                exact Option.noConfusion ht2

theorem workerStep_nextTimer (cfg : BotConfig) (s : BotState) (e : FileEvent) :
    (workerStep cfg s e).1.nextTimer = (workerBody cfg s e).1.nextTimer := by
  cases h : taskDone (workerBody cfg s e).1.unfinished <;> simp [workerStep, h]

theorem TimerInv_workerStep (cfg : BotConfig) (s : BotState) (e : FileEvent)
    (hInv : TimerInv s) : TimerInv (workerStep cfg s e).1 :=
  TimerInv_of_fields (TimerInv_workerBody cfg s e hInv)
    (workerStep_liveTimers cfg s e) (workerStep_nextTimer cfg s e)
    (workerStep_openBatches cfg s e)

theorem finalizeBody_liveTimers (env : FinalizeEnv) (s : BotState) (u : Nat) :
    (finalizeBody env s u).1.liveTimers = s.liveTimers := by
  unfold finalizeBody
  repeat' split <;> try rfl

theorem finalizeBody_nextTimer (env : FinalizeEnv) (s : BotState) (u : Nat) :
    (finalizeBody env s u).1.nextTimer = s.nextTimer := by
  unfold finalizeBody
  repeat' split <;> try rfl

theorem finalizeBody_openBatches (env : FinalizeEnv) (s : BotState) (u : Nat) :
    (finalizeBody env s u).1.openBatches = s.openBatches ∨
    (finalizeBody env s u).1.openBatches = upd s.openBatches u none := by
  unfold finalizeBody
  repeat' split
  all_goals first | exact Or.inl rfl | exact Or.inr rfl

theorem TimerInv_finalizeBody (env : FinalizeEnv) (s : BotState) (u : Nat)
    (hInv : TimerInv s) (hnou : ∀ p ∈ s.liveTimers, p.2 ≠ u) :
    TimerInv (finalizeBody env s u).1 := by
  obtain ⟨hnd, hfr, how⟩ := hInv
  have hl := finalizeBody_liveTimers env s u
  have hn := finalizeBody_nextTimer env s u
  rcases finalizeBody_openBatches env s u with ho | ho
  · exact TimerInv_of_fields ⟨hnd, hfr, how⟩ hl hn ho
  · refine ⟨?_, ?_, ?_⟩
    · rw [hl]
      exact hnd
    · rw [hl, hn]
      exact hfr
    · rw [hl, ho]
      intro p hp
      obtain ⟨cd2, hw2, ht2⟩ := how p hp
      refine ⟨cd2, ?_, ht2⟩
      have hne := hnou p hp
      simp only [upd]
      rw [if_neg hne]
      exact hw2

theorem TimerInv_resched (s : BotState) (u : Nat) (cd : CollectionData)
    (hInv : TimerInv s) (hno : ∀ p ∈ s.liveTimers, p.2 ≠ u) :
    TimerInv { s with
      openBatches := upd s.openBatches u (some { cd with timer := some s.nextTimer }),
      liveTimers := s.liveTimers ++ [(s.nextTimer, u)],
      nextTimer := s.nextTimer + 1 } := by
  obtain ⟨hnd, hfr, how⟩ := hInv
  refine ⟨?_, ?_, ?_⟩
  · simp only [List.nodup_append, List.nodup_singleton]
    refine ⟨hnd, by simp, ?_⟩
    intro p hp
    have hlt := hfr p hp
    simp only [List.mem_singleton]
    intro hcontra
    rw [hcontra] at hlt
    exact absurd hlt (lt_irrefl _)
  · intro p hp
    rcases List.mem_append.mp hp with h1 | h2
    · exact lt_trans (hfr p h1) (Nat.lt_succ_self _)
    · have hp2 : p = (s.nextTimer, u) := by simpa using h2
      rw [hp2]
      exact Nat.lt_succ_self _
  · intro p hp
    rcases List.mem_append.mp hp with h1 | h2
    · obtain ⟨cd2, hw2, ht2⟩ := how p h1
      refine ⟨cd2, ?_, ht2⟩
      have hne := hno p h1
      simp only [upd]
      rw [if_neg hne]
      exact hw2
    · have hp2 : p = (s.nextTimer, u) := by simpa using h2
      rw [hp2]
      refine ⟨{ cd with timer := some s.nextTimer }, ?_, rfl⟩
      simp [upd]

theorem TimerInv_finalizeStep (env : FinalizeEnv) (s : BotState) (u : Nat)
    (hInv : TimerInv s) (hnou : ∀ p ∈ s.liveTimers, p.2 ≠ u) :
    TimerInv (finalizeStep env s u).state := by
  unfold finalizeStep
  split
  · split
    · dsimp only
      exact TimerInv_resched s u _ hInv hnou
    · exact hInv
  · dsimp only
    have hInv1 : TimerInv { s with processingUsers := upd s.processingUsers u true } :=
      TimerInv_of_fields hInv rfl rfl rfl
    have hnou1 : ∀ p ∈ ({ s with processingUsers := upd s.processingUsers u true } :
        BotState).liveTimers, p.2 ≠ u := hnou
    have hInvB := TimerInv_finalizeBody env
      { s with processingUsers := upd s.processingUsers u true } u hInv1 hnou1
    split
    · exact TimerInv_of_fields hInvB rfl rfl rfl
    · refine TimerInv_startNewCollection _ u _ (TimerInv_of_fields hInvB rfl rfl rfl) ?_
      intro p hp
      dsimp only at hp
      rw [finalizeBody_liveTimers] at hp
      exact hnou p hp

theorem TimerInv_timerFire (env : FinalizeEnv) (s : BotState) (t : Nat × Nat)
    (hInv : TimerInv s) (ht : t ∈ s.liveTimers) :
    TimerInv (timerFire env s t).state := by
  have hInv2 : TimerInv { s with liveTimers := s.liveTimers.filter (fun p => p.1 ≠ t.1) } := by
    obtain ⟨hnd, hfr, how⟩ := hInv
    refine ⟨hnd.filter _, ?_, ?_⟩
    · intro p hp
      exact hfr p (List.mem_filter.mp hp).1
    · intro p hp
      exact how p (List.mem_filter.mp hp).1
  have hnou : ∀ p ∈ ({ s with liveTimers := s.liveTimers.filter (fun p => p.1 ≠ t.1) } :
      BotState).liveTimers, p.2 ≠ t.2 := by
    intro p hp hpu
    have hp2 := List.mem_filter.mp hp
    obtain ⟨cd1, hw1, ht1⟩ := hInv.2.2 p hp2.1
    obtain ⟨cd2, hw2, ht2⟩ := hInv.2.2 t ht
    rw [hpu] at hw1
    rw [hw2] at hw1
    have hcd : cd2 = cd1 := Option.some.inj hw1
    rw [← hcd] at ht1
    rw [ht2] at ht1
    have hpt : t.1 = p.1 := Option.some.inj ht1
    have hne := hp2.2
    simp only [decide_eq_true_eq] at hne
    exact hne hpt.symm
  exact TimerInv_finalizeStep env _ t.2 hInv2 hnou

/-- C3: at most one live pending finalization trigger exists per open
window at any instant: the timer discipline invariant (every live timer
handle is the unique handle stored in its window) is preserved both by a
worker iteration (appending to an open window cancels the stored handle
and schedules a fresh one, superseding the prior trigger) and by a live
timer firing (which runs the finalization, including its flood-wait
reschedule and its drain of waiting files), and under the invariant the
number of live timers of any user's window is at most one. -/
theorem c3_single_timer (cfg : BotConfig) (env : FinalizeEnv) (s : BotState)
    (e : FileEvent) (t : Nat × Nat) (u : Nat) (hInv : TimerInv s) :
    TimerInv (workerStep cfg s e).1 ∧
    (timersFor (workerStep cfg s e).1 u).length ≤ 1 ∧
    (t ∈ s.liveTimers →
      TimerInv (timerFire env s t).state ∧
      (timersFor (timerFire env s t).state u).length ≤ 1) := by
  have h1 := TimerInv_workerStep cfg s e hInv
  refine ⟨h1, timersFor_len_le_one _ h1 u, ?_⟩
  intro ht
  have h2 := TimerInv_timerFire env s t hInv ht
  exact ⟨h2, timersFor_len_le_one _ h2 u⟩

/-- Witness for c3_single_timer at the empty initial state with a concrete
event and a concrete fired timer handle. -/
theorem c3_single_timer_w :
    TimerInv (workerStep cfg0 initState fifoEventA).1 ∧
    (timersFor (workerStep cfg0 initState fifoEventA).1 7).length ≤ 1 ∧
    ((0, 7) ∈ initState.liveTimers →
      TimerInv (timerFire env0 initState (0, 7)).state ∧
      (timersFor (timerFire env0 initState (0, 7)).state 7).length ≤ 1) := by
  refine c3_single_timer cfg0 env0 initState fifoEventA (0, 7) 7 ?_
  refine ⟨?_, ?_, ?_⟩ <;> simp [initState]

theorem entrySum_aux (l : List String) : ∀ a : Nat,
    l.foldl (fun a e => a + e.length + 2) a = a + l.foldl (fun a e => a + e.length + 2) 0 := by
  induction l with
  | nil => intro a; simp
  | cons x xs ih =>
    intro a
    rw [List.foldl_cons, List.foldl_cons, ih (a + x.length + 2), ih (0 + x.length + 2)]
    omega

theorem entrySum_append_single (part : List String) (e : String) :
    entrySum (part ++ [e]) = entrySum part + e.length + 2 := by
  unfold entrySum
  rw [List.foldl_append]
  rfl

theorem joinSep_len (x : String) (xs : List String) :
    (joinSep "\n\n" (x :: xs)).length + 2 = entrySum (x :: xs) := by
  induction xs generalizing x with
  | nil =>
    show x.length + 2 = entrySum [x]
    unfold entrySum
    simp
  | cons y ys ih =>
    show (x ++ "\n\n" ++ joinSep "\n\n" (y :: ys)).length + 2 = entrySum (x :: y :: ys)
    rw [String.length_append, String.length_append]
    have h2 : ("\n\n" : String).length = 2 := rfl
    rw [h2]
    have hih := ih y
    unfold entrySum at hih ⊢
    rw [List.foldl_cons]
    rw [entrySum_aux (y :: ys) (0 + x.length + 2)]
    omega

theorem flushCaption_len (base footer : String) (part : List String) (h : part ≠ []) :
    (flushCaption base footer part).length = base.length + footer.length + entrySum part := by
  match part with
  | [] => exact absurd rfl h
  | x :: xs =>
    unfold flushCaption
    rw [String.length_append, String.length_append, String.length_append]
    have h2 : ("\n\n" : String).length = 2 := rfl
    rw [h2]
    have hj := joinSep_len x xs
    omega

theorem paginateLoop_bound (limit : Nat) (base footer : String) (entries : List String) :
    ∀ (parts : List (List String)) (current : List String) (len : Nat),
      (∀ e ∈ entries, base.length + footer.length + e.length + 2 ≤ limit) →
      len = base.length + footer.length + entrySum current →
      (current ≠ [] → len ≤ limit) →
      (∀ q ∈ parts, q ≠ [] ∧ (flushCaption base footer q).length ≤ limit) →
      ∀ q ∈ paginateLoop limit base footer entries parts current len,
        q ≠ [] ∧ (flushCaption base footer q).length ≤ limit := by
  induction entries with
  | nil =>
    intro parts current len hfit hlen hcur hparts q hq
    unfold paginateLoop at hq
    by_cases hc : current = []
    · rw [if_pos hc] at hq
      exact hparts q hq
    · rw [if_neg hc] at hq
      rcases List.mem_append.mp hq with h1 | h2
      · exact hparts q h1
      · have hq2 : q = current := by simpa using h2
        subst hq2
        refine ⟨hc, ?_⟩
        rw [flushCaption_len base footer q hc]
        rw [← hlen]
        exact hcur hc
  | cons entry rest ih =>
    intro parts current len hfit hlen hcur hparts q hq
    unfold paginateLoop at hq
    by_cases hcond : limit < len + entry.length + 2 ∧ current ≠ []
    · rw [if_pos hcond] at hq
      refine ih _ _ _ (fun e he => hfit e (List.mem_cons_of_mem entry he)) ?_ ?_ ?_ q hq
      · unfold entrySum
        simp
        omega
      · intro _
        exact hfit entry (List.mem_cons_self entry rest)
      · intro p hp
        rcases List.mem_append.mp hp with h1 | h2
        · exact hparts p h1
        · have hp2 : p = current := by simpa using h2
          subst hp2
          refine ⟨hcond.2, ?_⟩
          rw [flushCaption_len base footer p hcond.2]
          rw [← hlen]
          exact hcur hcond.2
    · rw [if_neg hcond] at hq
      refine ih _ _ _ (fun e he => hfit e (List.mem_cons_of_mem entry he)) ?_ ?_ ?_ q hq
      · rw [entrySum_append_single]
        omega
      · intro _
        by_cases hc : current = []
        · subst hc
          have := hfit entry (List.mem_cons_self entry rest)
          unfold entrySum at hlen
          simp at hlen
          omega
        · have hnot : ¬(limit < len + entry.length + 2) := by
            intro hcontra
            exact hcond ⟨hcontra, hc⟩
          omega
      · exact hparts

/-- C8 as amended: every caption produced by the pagination loop of
create_post stays within the applicable platform limit provided each
individual link entry fits alongside the base caption and footer
(base.length + footer.length + entry.length + 2 at most the limit); the
counterexample below shows a single oversized entry escapes the bound, and
the later part-numbering substitution applied when several pages are
produced can lengthen captions past it. -/
theorem c8_caption_bound (limit : Nat) (base footer : String) (entries : List String)
    (hfit : ∀ e ∈ entries, base.length + footer.length + e.length + 2 ≤ limit) :
    ∀ cap ∈ paginateCaptions limit base footer entries, cap.length ≤ limit := by
  intro cap hcap
  unfold paginateCaptions at hcap
  obtain ⟨q, hq, hflush⟩ := List.mem_map.mp hcap
  have hmain := paginateLoop_bound limit base footer entries [] []
    (base.length + footer.length) hfit (by simp [entrySum])
    (fun h => absurd rfl h) (by simp) q hq
  rw [← hflush]
  exact hmain.2

set_option maxRecDepth 10000 in
/-- C8 counterexample: rendering a batch whose single link entry is longer
than the photo caption limit produces exactly one post, with a poster
attached and a caption exceeding PHOTO_CAPTION_LIMIT: the pagination loop
admits the first entry of a page unconditionally, so the renderer does
emit an over-limit caption rather than paginating below the bound. -/
theorem c8_cex_oversized_entry :
    ((renderPosts true "T" [longEntry]).map
      (fun p => (p.hasPoster, decide (PHOTO_CAPTION_LIMIT < p.caption.length))))
      = [(true, true)] := by
  decide

/-- Witness for c8_caption_bound: two short entries paginate into captions
within the photo limit. -/
theorem c8_caption_bound_w :
    (flushCaption "B" footer_line ["e1", "e2"]).length ≤ PHOTO_CAPTION_LIMIT := by
  have h := c8_caption_bound PHOTO_CAPTION_LIMIT "B" footer_line ["e1", "e2"] (by decide)
  refine h _ ?_
  show flushCaption "B" footer_line ["e1", "e2"]
    ∈ paginateCaptions PHOTO_CAPTION_LIMIT "B" footer_line ["e1", "e2"]
  have hpc : paginateCaptions PHOTO_CAPTION_LIMIT "B" footer_line ["e1", "e2"]
      = [flushCaption "B" footer_line ["e1", "e2"]] := by decide
  rw [hpc]
  exact List.mem_singleton.mpr rfl
